/-
Verification of the alert pipeline of the atspm-report repository.

The Lean definitions below are shallow embeddings of the Python source:
  * ATSPMReport.py        : suppress_alerts, update_and_save_alerts,
                            load_past_alerts (and the try/except around it
                            in main)
  * data_processing.py    : cusum (the CUSUM scorer) and alert (the alert
                            rule evaluator and batch selection)
  * src/atspm_report/phase_skip_processing.py : transform_phase_skip_raw_data
Dates and timestamps are integers (days, or seconds for the phase-skip
part); SQL numeric columns are rationals, except the CUSUM scorer whose
sample standard deviation needs a square root and is therefore modelled
over the reals.  SQL NULL is modelled with Option where it matters
(division by zero, missing max-cycle-length aggregates).
-/
import Mathlib

namespace AtspmReport

/-! ## Generic list helpers

`drop_duplicates` of pandas keeps the first occurrence of each duplicated
row; `dedupFirst` is that operation (structurally recursive through an
accumulator of already seen rows, so that it evaluates in the kernel). -/

/-- Keep-first deduplication with an accumulator of the rows already seen. -/
def dedupFirstAux [DecidableEq α] (seen : List α) : List α → List α
  | [] => []
  | a :: l => if a ∈ seen then dedupFirstAux seen l else a :: dedupFirstAux (a :: seen) l

/-- Keep-first deduplication: the model of pandas `drop_duplicates` (default
`keep='first'`) and of SQL `distinct` where the order is the scan order. -/
def dedupFirst [DecidableEq α] (l : List α) : List α :=
  dedupFirstAux [] l

theorem mem_dedupFirstAux [DecidableEq α] (seen : List α) (l : List α) (a : α) :
    a ∈ dedupFirstAux seen l ↔ a ∈ l ∧ a ∉ seen := by
  induction l generalizing seen with
  | nil => simp [dedupFirstAux]
  | cons b t ih =>
    by_cases hb : b ∈ seen
    · simp only [dedupFirstAux, if_pos hb, ih, List.mem_cons]
      constructor
      · rintro ⟨h1, h2⟩; exact ⟨Or.inr h1, h2⟩
      · rintro ⟨h1 | h1, h2⟩
        · exact absurd (h1 ▸ hb) h2
        · exact ⟨h1, h2⟩
    · simp only [dedupFirstAux, if_neg hb, List.mem_cons, ih, not_or]
      constructor
      · rintro (rfl | ⟨h1, h2, h3⟩)
        · exact ⟨Or.inl rfl, hb⟩
        · exact ⟨Or.inr h1, h3⟩
      · rintro ⟨rfl | h1, h2⟩
        · exact Or.inl rfl
        · by_cases hab : a = b
          · exact Or.inl hab
          · exact Or.inr ⟨h1, hab, h2⟩

theorem mem_dedupFirst [DecidableEq α] (l : List α) (a : α) :
    a ∈ dedupFirst l ↔ a ∈ l := by
  simp [dedupFirst, mem_dedupFirstAux]

theorem nodup_dedupFirstAux [DecidableEq α] (seen : List α) (l : List α) :
    (dedupFirstAux seen l).Nodup := by
  induction l generalizing seen with
  | nil => simp [dedupFirstAux]
  | cons b t ih =>
    by_cases hb : b ∈ seen
    · simpa [dedupFirstAux, if_pos hb] using ih seen
    · rw [dedupFirstAux, if_neg hb]
      refine List.nodup_cons.mpr ⟨?_, ih (b :: seen)⟩
      intro hmem
      exact absurd ((mem_dedupFirstAux _ _ _).mp hmem).2 (by simp)

theorem nodup_dedupFirst [DecidableEq α] (l : List α) : (dedupFirst l).Nodup :=
  nodup_dedupFirstAux [] l

theorem dedupFirstAux_eq_self [DecidableEq α] (seen : List α) (l : List α)
    (hl : l.Nodup) (hd : ∀ a ∈ l, a ∉ seen) : dedupFirstAux seen l = l := by
  induction l generalizing seen with
  | nil => simp [dedupFirstAux]
  | cons b t ih =>
    have hb : b ∉ seen := hd b (List.mem_cons_self _ _)
    rw [dedupFirstAux, if_neg hb]
    congr 1
    refine ih (b :: seen) (List.Nodup.of_cons hl) ?_
    intro a ha
    have hab : a ≠ b := by
      rintro rfl
      exact (List.nodup_cons.mp hl).1 ha
    simp only [List.mem_cons, not_or]
    exact ⟨hab, hd a (List.mem_cons_of_mem _ ha)⟩

theorem dedupFirst_eq_self [DecidableEq α] (l : List α) (hl : l.Nodup) :
    dedupFirst l = l :=
  dedupFirstAux_eq_self [] l hl (by simp)

theorem dedupFirstAux_congr_seen [DecidableEq α] (seen₁ seen₂ : List α) (l : List α)
    (h : ∀ a, a ∈ seen₁ ↔ a ∈ seen₂) : dedupFirstAux seen₁ l = dedupFirstAux seen₂ l := by
  induction l generalizing seen₁ seen₂ with
  | nil => rfl
  | cons b t ih =>
    by_cases hb : b ∈ seen₁
    · rw [dedupFirstAux, if_pos hb, dedupFirstAux, if_pos ((h b).mp hb)]
      exact ih seen₁ seen₂ h
    · rw [dedupFirstAux, if_neg hb, dedupFirstAux, if_neg (fun hc => hb ((h b).mpr hc))]
      congr 1
      refine ih (b :: seen₁) (b :: seen₂) ?_
      intro a; simp [List.mem_cons, h a]

theorem dedupFirstAux_append [DecidableEq α] (seen : List α) (s n : List α)
    (hs : s.Nodup) (hd : ∀ a ∈ s, a ∉ seen) :
    dedupFirstAux seen (s ++ n) = s ++ dedupFirstAux (s ++ seen) n := by
  induction s generalizing seen with
  | nil => simp
  | cons b t ih =>
    have hb : b ∉ seen := hd b (List.mem_cons_self _ _)
    rw [List.cons_append, dedupFirstAux, if_neg hb]
    rw [List.cons_append]
    congr 1
    rw [ih (b :: seen) (List.Nodup.of_cons hs) ?_]
    · refine congrArg (t ++ ·) (dedupFirstAux_congr_seen _ _ _ ?_)
      intro a
      simp only [List.mem_append, List.mem_cons]
      tauto
    · intro a ha
      have hab : a ≠ b := by
        rintro rfl
        exact (List.nodup_cons.mp hs).1 ha
      simp only [List.mem_cons, not_or]
      exact ⟨hab, hd a (List.mem_cons_of_mem _ ha)⟩

theorem dedupFirst_append [DecidableEq α] (s n : List α) (hs : s.Nodup) :
    dedupFirst (s ++ n) = s ++ dedupFirstAux s n := by
  rw [dedupFirst, dedupFirstAux_append [] s n hs (by simp)]
  exact congrArg (s ++ ·) (dedupFirstAux_congr_seen _ _ _ (by simp))

/-! ## Alert lifecycle (ATSPMReport.py)

A persisted or flagged alert record, reduced to the columns
`update_and_save_alerts` keeps: the EntityKey id columns (one abstract key
value) and the Date. -/

/-- One alert record: EntityKey id columns plus Date (`required_cols` of
`update_and_save_alerts`). -/
structure ARec (κ : Type) where
  key : κ
  date : ℤ
  deriving DecidableEq

/-- Embedding of `suppress_alerts` (ATSPMReport.py): drop every new alert
whose EntityKey has a past alert dated within `suppressionDays` of `now`.
An empty past-alert set, or one with no recent rows, returns the new
alerts unchanged. -/
def suppress_alerts [DecidableEq κ] (now suppressionDays : ℤ)
    (newAlerts pastAlerts : List (ARec κ)) : List (ARec κ) :=
  if pastAlerts.isEmpty then newAlerts
  else
    let recentPast := pastAlerts.filter (fun p => decide (now - suppressionDays ≤ p.date))
    if recentPast.isEmpty then newAlerts
    else newAlerts.filter (fun r => !(recentPast.any (fun p => decide (p.key = r.key))))

/-- Embedding of `update_and_save_alerts` (ATSPMReport.py): concatenate the
past and new alerts, drop duplicate (key, Date) rows keeping the first
occurrence, then, when `retentionWeeks > 0`, keep only rows dated on or
after `now` minus `retentionWeeks` weeks.  The returned list is the stored
set the function writes back. -/
def update_and_save_alerts [DecidableEq κ] (now retentionWeeks : ℤ)
    (newAlerts pastAlerts : List (ARec κ)) : List (ARec κ) :=
  let combined := pastAlerts ++ newAlerts
  let deduped := dedupFirst combined
  if 0 < retentionWeeks then
    deduped.filter (fun r => decide (now - 7 * retentionWeeks ≤ r.date))
  else deduped

theorem dedupFirstAux_eq_nil [DecidableEq α] (seen l : List α)
    (h : ∀ a ∈ l, a ∈ seen) : dedupFirstAux seen l = [] := by
  induction l with
  | nil => rfl
  | cons b t ih =>
    rw [dedupFirstAux, if_pos (h b (List.mem_cons_self _ _))]
    exact ih fun a ha => h a (List.mem_cons_of_mem _ ha)

/-- Records are equal exactly when their id columns and Date agree. -/
theorem ARec_eq_iff {κ : Type} (a b : ARec κ) :
    a = b ↔ a.key = b.key ∧ a.date = b.date := by
  cases a; cases b; simp [ARec.mk.injEq]

/-- C3: a flagged row survives `suppress_alerts` exactly when the persisted
history has no record with the same EntityKey dated within
`suppressionDays` of now; one recent history record for a key therefore
silences every flagged row for that key, and an empty history leaves the
flagged set unchanged. -/
theorem suppress_alerts_characterization [DecidableEq κ] (now d : ℤ)
    (newAlerts pastAlerts : List (ARec κ)) :
    (∀ r : ARec κ, r ∈ suppress_alerts now d newAlerts pastAlerts ↔
      r ∈ newAlerts ∧ ¬ ∃ p ∈ pastAlerts, p.key = r.key ∧ now - d ≤ p.date)
    ∧ (pastAlerts = [] → suppress_alerts now d newAlerts pastAlerts = newAlerts) := by
  constructor
  · intro r
    by_cases h1 : pastAlerts.isEmpty
    · rw [List.isEmpty_iff] at h1
      subst h1
      simp [suppress_alerts]
    · rw [suppress_alerts, if_neg h1]
      by_cases h2 : (pastAlerts.filter (fun p => decide (now - d ≤ p.date))).isEmpty
      · rw [if_pos h2]
        rw [List.isEmpty_iff] at h2
        constructor
        · intro hr
          refine ⟨hr, ?_⟩
          rintro ⟨p, hp, _, hdate⟩
          have hpf : p ∈ pastAlerts.filter (fun p => decide (now - d ≤ p.date)) :=
            List.mem_filter.mpr ⟨hp, by simpa using hdate⟩
          rw [h2] at hpf
          exact absurd hpf (List.not_mem_nil p)
        · exact fun h => h.1
      · rw [if_neg h2, List.mem_filter]
        simp only [Bool.not_eq_eq_eq_not, Bool.not_true, List.any_eq_false,
          List.mem_filter, decide_eq_true_eq, decide_eq_false_iff_not]
        constructor
        · rintro ⟨hr, hno⟩
          refine ⟨hr, ?_⟩
          rintro ⟨p, hp, hkey, hdate⟩
          exact hno p ⟨hp, by simpa using hdate⟩ hkey
        · rintro ⟨hr, hno⟩
          refine ⟨hr, ?_⟩
          rintro p ⟨hp, hdate⟩ hkey
          exact hno ⟨p, hp, hkey, by simpa using hdate⟩
  · intro h
    subst h
    simp [suppress_alerts]

/-- C4: merging the same flagged batch into the persisted store twice gives
the same stored list as merging it once, and after any merge no two stored
records share both id columns and Date. -/
theorem update_and_save_alerts_idempotent [DecidableEq κ] (now w : ℤ)
    (newAlerts pastAlerts : List (ARec κ)) :
    update_and_save_alerts now w newAlerts
        (update_and_save_alerts now w newAlerts pastAlerts)
      = update_and_save_alerts now w newAlerts pastAlerts
    ∧ List.Pairwise (fun a b : ARec κ => ¬(a.key = b.key ∧ a.date = b.date))
        (update_and_save_alerts now w newAlerts pastAlerts) := by
  have hpair : ∀ l : List (ARec κ), l.Nodup →
      List.Pairwise (fun a b : ARec κ => ¬(a.key = b.key ∧ a.date = b.date)) l := by
    intro l hl
    exact hl.imp fun hne hcon => hne ((ARec_eq_iff _ _).mpr hcon)
  by_cases hw : (0:ℤ) < w
  · have hDnodup : (dedupFirst (pastAlerts ++ newAlerts)).Nodup := nodup_dedupFirst _
    have hS : update_and_save_alerts now w newAlerts pastAlerts =
        (dedupFirst (pastAlerts ++ newAlerts)).filter
          (fun r => decide (now - 7 * w ≤ r.date)) := by
      rw [update_and_save_alerts, if_pos hw]
    have hSnodup : (update_and_save_alerts now w newAlerts pastAlerts).Nodup := by
      rw [hS]; exact List.Nodup.filter _ hDnodup
    refine ⟨?_, hpair _ hSnodup⟩
    rw [update_and_save_alerts, if_pos hw,
      dedupFirst_append _ _ hSnodup, List.filter_append]
    have h1 : (update_and_save_alerts now w newAlerts pastAlerts).filter
        (fun r => decide (now - 7 * w ≤ r.date)) =
        update_and_save_alerts now w newAlerts pastAlerts := by
      refine List.filter_eq_self.mpr ?_
      intro a ha
      rw [hS] at ha
      exact (List.mem_filter.mp ha).2
    have h2 : (dedupFirstAux (update_and_save_alerts now w newAlerts pastAlerts)
        newAlerts).filter (fun r => decide (now - 7 * w ≤ r.date)) = [] := by
      rw [List.filter_eq_nil_iff]
      intro a ha
      obtain ⟨haN, haS⟩ := (mem_dedupFirstAux _ _ _).mp ha
      have haD : a ∈ dedupFirst (pastAlerts ++ newAlerts) :=
        (mem_dedupFirst _ _).mpr (List.mem_append_right _ haN)
      intro hp
      exact haS (hS ▸ List.mem_filter.mpr ⟨haD, hp⟩)
    rw [h1, h2, List.append_nil]
  · have hS : update_and_save_alerts now w newAlerts pastAlerts =
        dedupFirst (pastAlerts ++ newAlerts) := by
      rw [update_and_save_alerts, if_neg hw]
    have hSnodup : (update_and_save_alerts now w newAlerts pastAlerts).Nodup := by
      rw [hS]; exact nodup_dedupFirst _
    refine ⟨?_, hpair _ hSnodup⟩
    rw [update_and_save_alerts, if_neg hw,
      dedupFirst_append _ _ hSnodup, dedupFirstAux_eq_nil, List.append_nil]
    intro a ha
    rw [hS]
    exact (mem_dedupFirst _ _).mpr (List.mem_append_right _ ha)

/-- C8: with a positive retention parameter, every stored record after an
update is dated on or after now minus `retentionWeeks` weeks (older
records are absent), and a combined record lying exactly at the boundary
(or later) is retained. -/
theorem update_retention_boundary [DecidableEq κ] (now w : ℤ)
    (newAlerts pastAlerts : List (ARec κ)) (hw : 0 < w) :
    (∀ r ∈ update_and_save_alerts now w newAlerts pastAlerts,
      now - 7 * w ≤ r.date)
    ∧ (∀ r ∈ dedupFirst (pastAlerts ++ newAlerts), now - 7 * w ≤ r.date →
        r ∈ update_and_save_alerts now w newAlerts pastAlerts) := by
  rw [update_and_save_alerts, if_pos hw]
  constructor
  · intro r hr
    simpa using (List.mem_filter.mp hr).2
  · intro r hr hd
    exact List.mem_filter.mpr ⟨hr, by simpa using hd⟩

/-- Closed instance of the retention boundary: now = 100, one week of
retention, one new alert dated exactly at the boundary 93. -/
theorem update_retention_boundary_witness :
    (∀ r ∈ update_and_save_alerts (κ := ℕ) 100 1 [⟨0, 93⟩] [],
      100 - 7 * 1 ≤ r.date)
    ∧ (∀ r ∈ dedupFirst (([] : List (ARec ℕ)) ++ [⟨0, 93⟩]), 100 - 7 * 1 ≤ r.date →
        r ∈ update_and_save_alerts (κ := ℕ) 100 1 [⟨0, 93⟩] []) :=
  update_retention_boundary 100 1 [⟨0, 93⟩] [] (by norm_num)

/-! ## Alert rule evaluator (data_processing.py, `alert`)

A row of the scored table `alert` consumes: the metric value, the joined
group baseline columns `_Average`, `_StdDev`, `_MaxDate` (the max date is
recomputed from the group below, as `cusum` joins it in), the CUSUM score
column, and `Services` (the support count, present for the max-out
family).  SQL three-valued logic is modelled with `Option Bool`; the only
NULL source here is the z-score, whose division by a zero standard
deviation yields NULL. -/

/-- One scored observation as the `alert` function sees it. -/
structure SRow (κ : Type) where
  key : κ
  date : ℤ
  value : ℚ
  average : ℚ
  stdDev : ℚ
  cusumScore : ℚ
  services : ℚ
  deriving DecidableEq

/-- Embedding of the `z_score` column: `(Value - _Average) / _StdDev`,
NULL when the standard deviation is zero (SQL division by zero). -/
def zScore (r : SRow κ) : Option ℚ :=
  if r.stdDev = 0 then none else some ((r.value - r.average) / r.stdDev)

/-- SQL three-valued AND on `Option Bool` (NULL = `none`). -/
def kand : Option Bool → Option Bool → Option Bool
  | some false, _ => some false
  | _, some false => some false
  | some true, some true => some true
  | _, _ => none

/-- The `z_score > 4` comparison under NULL propagation. -/
def zGtFour (r : SRow κ) : Option Bool :=
  (zScore r).map (fun z => decide (4 < z))

/-- `Alert` column for the phase-termination (Percent MaxOut) family:
`CUSUM > 0.25 AND Services > 30 AND z_score > 4 AND Value > 0.2`, cast to
an integer 0/1 (NULL stays NULL). -/
def maxoutAlert (r : SRow κ) : Option ℤ :=
  (kand (kand (kand (some (decide (r.cusumScore > 1/4)))
    (some (decide (r.services > 30)))) (zGtFour r))
    (some (decide (r.value > 1/5)))).map (fun b => if b then 1 else 0)

/-- `Alert` column for the detector (PercentAnomalous) family:
`CUSUM > 0.25 AND z_score > 4 AND Value > 0.15`. -/
def detectorAlert (r : SRow κ) : Option ℤ :=
  (kand (kand (some (decide (r.cusumScore > 1/4))) (zGtFour r))
    (some (decide (r.value > 3/20)))).map (fun b => if b then 1 else 0)

/-- `Alert` column for the missing-data family:
`CUSUM > 0.25 AND z_score > 4 AND Value > 0.1`. -/
def missingDataAlert (r : SRow κ) : Option ℤ :=
  (kand (kand (some (decide (r.cusumScore > 1/4))) (zGtFour r))
    (some (decide (r.value > 1/10)))).map (fun b => if b then 1 else 0)

/-- The group `_MaxDate` column: the maximum Date among the rows sharing
the EntityKey (joined in by `cusum`). -/
def groupMaxDate [DecidableEq κ] (rows : List (SRow κ)) (key : κ) : ℤ :=
  (((rows.filter (fun o => decide (o.key = key))).map (fun o => o.date)).max?).getD 0

/-- The rows driving batch selection: `Alert == 1` and
`days_from_max = |Date - _MaxDate| <= 6` (a live alert inside the trailing
week of the key's own max date). -/
def liveAlertRows [DecidableEq κ] (alertCol : SRow κ → Option ℤ)
    (rows : List (SRow κ)) : List (SRow κ) :=
  rows.filter (fun s => decide (alertCol s = some 1)
    && decide ((s.date - groupMaxDate rows s.key).natAbs ≤ 6))

/-- Embedding of the tail of `alert`: the semi-join keeping every row whose
(DeviceId, Phase/Detector) key appears among the live alert rows. -/
def alertBatch [DecidableEq κ] (alertCol : SRow κ → Option ℤ)
    (rows : List (SRow κ)) : List (SRow κ) :=
  rows.filter (fun r => (liveAlertRows alertCol rows).any (fun s => decide (s.key = r.key)))

theorem kand_eq_some_true (a b : Option Bool) :
    kand a b = some true ↔ a = some true ∧ b = some true := by
  revert a b; decide

theorem map_bit_eq_some_one (o : Option Bool) :
    o.map (fun b => if b then (1:ℤ) else 0) = some 1 ↔ o = some true := by
  rcases o with _ | b
  · simp
  · rcases b with _ | _ <;> simp

theorem zGtFour_eq_some_true (r : SRow κ) :
    zGtFour r = some true ↔ ∃ z, zScore r = some z ∧ 4 < z := by
  rw [zGtFour]
  rcases h : zScore r with _ | z
  · simp
  · simp [h]

/-- C6: the binary alert flag equals exactly the metric-family predicate:
max-out rows flag 1 iff CusumScore > 0.25, SupportCount > 30, ZScore > 4
and Value > 0.20; detector rows iff CusumScore > 0.25, ZScore > 4 and
Value > 0.15; missing-data rows iff CusumScore > 0.25, ZScore > 4 and
Value > 0.10. -/
theorem alert_flag_predicates (r : SRow κ) :
    (maxoutAlert r = some 1 ↔ 1/4 < r.cusumScore ∧ 30 < r.services ∧
      (∃ z, zScore r = some z ∧ 4 < z) ∧ 1/5 < r.value)
    ∧ (detectorAlert r = some 1 ↔ 1/4 < r.cusumScore ∧
      (∃ z, zScore r = some z ∧ 4 < z) ∧ 3/20 < r.value)
    ∧ (missingDataAlert r = some 1 ↔ 1/4 < r.cusumScore ∧
      (∃ z, zScore r = some z ∧ 4 < z) ∧ 1/10 < r.value) := by
  refine ⟨?_, ?_, ?_⟩
  · rw [maxoutAlert, map_bit_eq_some_one, kand_eq_some_true, kand_eq_some_true,
      kand_eq_some_true, zGtFour_eq_some_true]
    simp only [Option.some.injEq, decide_eq_true_eq]
    constructor
    · rintro ⟨⟨⟨h1, h2⟩, h3⟩, h4⟩; exact ⟨h1, h2, h3, h4⟩
    · rintro ⟨h1, h2, h3, h4⟩; exact ⟨⟨⟨h1, h2⟩, h3⟩, h4⟩
  · rw [detectorAlert, map_bit_eq_some_one, kand_eq_some_true, kand_eq_some_true,
      zGtFour_eq_some_true]
    simp only [Option.some.injEq, decide_eq_true_eq]
    constructor
    · rintro ⟨⟨h1, h2⟩, h3⟩; exact ⟨h1, h2, h3⟩
    · rintro ⟨h1, h2, h3⟩; exact ⟨⟨h1, h2⟩, h3⟩
  · rw [missingDataAlert, map_bit_eq_some_one, kand_eq_some_true, kand_eq_some_true,
      zGtFour_eq_some_true]
    simp only [Option.some.injEq, decide_eq_true_eq]
    constructor
    · rintro ⟨⟨h1, h2⟩, h3⟩; exact ⟨h1, h2, h3⟩
    · rintro ⟨h1, h2, h3⟩; exact ⟨⟨h1, h2⟩, h3⟩

theorem kand_ne_some_true_of_none (a b : Option Bool) (hb : b = none) :
    kand a b ≠ some true := by
  subst hb; revert a; decide

/-- C9: the z-score computation is total: with a nonzero standard deviation
it is `(Value - _Average) / _StdDev`; with a zero standard deviation no
division by zero happens — the z-score is NULL and the row can never
carry alert flag 1 in any of the three families (it is suppressed from
alerting). -/
theorem zScore_total (r : SRow κ) :
    (r.stdDev ≠ 0 → zScore r = some ((r.value - r.average) / r.stdDev))
    ∧ (r.stdDev = 0 → zScore r = none ∧ maxoutAlert r ≠ some 1
        ∧ detectorAlert r ≠ some 1 ∧ missingDataAlert r ≠ some 1) := by
  constructor
  · intro h; simp [zScore, h]
  · intro h
    have hz : zScore r = none := by simp [zScore, h]
    have hg : zGtFour r = none := by simp [zGtFour, hz]
    refine ⟨hz, ?_, ?_, ?_⟩
    · rw [maxoutAlert, Ne, map_bit_eq_some_one, kand_eq_some_true]
      rintro ⟨hk, -⟩
      exact kand_ne_some_true_of_none _ _ hg hk
    · rw [detectorAlert, Ne, map_bit_eq_some_one, kand_eq_some_true]
      rintro ⟨hk, -⟩
      exact kand_ne_some_true_of_none _ _ hg hk
    · rw [missingDataAlert, Ne, map_bit_eq_some_one, kand_eq_some_true]
      rintro ⟨hk, -⟩
      exact kand_ne_some_true_of_none _ _ hg hk

/-- C5: the alert batch keeps, per EntityKey, either every row of that key
or none; a row is kept exactly when some row of its key carries alert
flag 1 with a date within 6 days of the key's own max date. -/
theorem alertBatch_all_or_none [DecidableEq κ] (alertCol : SRow κ → Option ℤ)
    (rows : List (SRow κ)) :
    (∀ r : SRow κ, r ∈ alertBatch alertCol rows ↔ r ∈ rows ∧
      ∃ s ∈ rows, s.key = r.key ∧ alertCol s = some 1 ∧
        (s.date - groupMaxDate rows s.key).natAbs ≤ 6)
    ∧ (∀ r s : SRow κ, r ∈ rows → s ∈ rows → r.key = s.key →
        (r ∈ alertBatch alertCol rows ↔ s ∈ alertBatch alertCol rows)) := by
  have hmem : ∀ r : SRow κ, r ∈ alertBatch alertCol rows ↔ r ∈ rows ∧
      ∃ s ∈ rows, s.key = r.key ∧ alertCol s = some 1 ∧
        (s.date - groupMaxDate rows s.key).natAbs ≤ 6 := by
    intro r
    rw [alertBatch, List.mem_filter, List.any_eq_true]
    simp only [liveAlertRows, List.mem_filter, Bool.and_eq_true, decide_eq_true_eq]
    constructor
    · rintro ⟨hr, s, ⟨hs, h1, h2⟩, hk⟩
      exact ⟨hr, s, hs, hk, h1, h2⟩
    · rintro ⟨hr, s, hs, hk, h1, h2⟩
      exact ⟨hr, s, ⟨hs, h1, h2⟩, hk⟩
  refine ⟨hmem, ?_⟩
  intro r s hr hs hkey
  rw [hmem r, hmem s]
  constructor
  · rintro ⟨-, t, ht, htk, h1, h2⟩
    exact ⟨hs, t, ht, htk.trans hkey, h1, h2⟩
  · rintro ⟨-, t, ht, htk, h1, h2⟩
    exact ⟨hr, t, ht, htk.trans hkey.symm, h1, h2⟩

/-! ## CUSUM scorer (data_processing.py, `cusum`)

One metric observation: the EntityKey (DeviceId plus Phase or Detector
when present, abstracted as one key value), the Date (days) and the metric
Value.  The scorer is modelled over the reals because the joined
`_StdDev` column is a sample standard deviation (a square root). -/

/-- One metric observation of a metric-family table. -/
structure MObs (κ : Type) where
  key : κ
  date : ℤ
  value : ℝ

/-- The rows of the table sharing an EntityKey (the group of the
`group_by` / join in `cusum`). -/
def obsGroup [DecidableEq κ] (tbl : List (MObs κ)) (key : κ) : List (MObs κ) :=
  tbl.filter (fun o => decide (o.key = key))

/-- Mean of a list of values (`_Average`). -/
noncomputable def listMean (l : List ℝ) : ℝ := l.sum / l.length

/-- Sample standard deviation of a list of values (`_StdDev`, the default
`std` aggregate). -/
noncomputable def sampleStdDev (l : List ℝ) : ℝ :=
  Real.sqrt ((l.map (fun v => (v - listMean l) ^ 2)).sum / ((l.length : ℝ) - 1))

/-- The group `_MinDate` aggregate. -/
def groupMinDate (g : List (MObs κ)) : ℤ :=
  ((g.map (fun o => o.date)).min?).getD 0

/-- The trailing range window of `cusum`: the rows of the group dated in
the 6 calendar days preceding `d` or on `d` itself. -/
def cusumWindow (g : List (MObs κ)) (d : ℤ) : List (MObs κ) :=
  g.filter (fun o => decide (d - 6 ≤ o.date) && decide (o.date ≤ d))

/-- The `DateWeight` column: `(Date.delta(_MinDate, days) + 1) ^ forgetfulness`. -/
noncomputable def dateWeight (f : ℕ) (minD d : ℤ) : ℝ :=
  ((d - minD + 1 : ℤ) : ℝ) ^ f

/-- Embedding of `cusum` (data_processing.py) for the observation `o` of
table `tbl`: joins the group aggregates `_Average`, `_StdDev`, `_MinDate`
back to the row, forms the `DateWeight`, `DateWeightSum` and `DaySum`
columns, and returns `DaySum`-window-sum over `DateWeightSum` times 7. -/
noncomputable def cusum [DecidableEq κ] (k : ℝ) (f : ℕ)
    (tbl : List (MObs κ)) (o : MObs κ) : ℝ :=
  let g := obsGroup tbl o.key
  let average := listMean (g.map (fun x => x.value))
  let stdDev := sampleStdDev (g.map (fun x => x.value))
  let minD := groupMinDate g
  let dateWeightSum := ((cusumWindow g o.date).map (fun x => dateWeight f minD x.date)).sum
  let daySum := ((cusumWindow g o.date).map (fun x =>
    max 0 (x.value - average - k * stdDev) * dateWeight f minD x.date)).sum
  daySum / dateWeightSum * 7

/-- Modelled from the spec (section 4.1): CusumScore for day D is 7 times
the sum of `excess(d) * w(d)` over the trailing window, divided by the sum
of `w(d)` over the same window, with `excess = max(0, Value - Mean -
k * StdDev)` and `w(Date) = (days_between(Date, MinDate) + 1) ^
forgetfulness`, the baseline taken over all of the group's observations. -/
noncomputable def cusumSpecFormula [DecidableEq κ] (k : ℝ) (f : ℕ)
    (tbl : List (MObs κ)) (o : MObs κ) : ℝ :=
  let g := obsGroup tbl o.key
  let average := listMean (g.map (fun x => x.value))
  let stdDev := sampleStdDev (g.map (fun x => x.value))
  let minD := groupMinDate g
  7 * ((cusumWindow g o.date).map (fun x =>
      max 0 (x.value - average - k * stdDev) * dateWeight f minD x.date)).sum
    / ((cusumWindow g o.date).map (fun x => dateWeight f minD x.date)).sum

/-- C1: the CusumScore the code computes for an observation equals the
spec's formula: 7 times the window sum of excess times recency weight,
divided by the window sum of the recency weights, with the baseline and
minimum date taken over the observation's whole EntityKey group. -/
theorem cusum_eq_spec_formula [DecidableEq κ] (k : ℝ) (f : ℕ)
    (tbl : List (MObs κ)) (o : MObs κ) :
    cusum k f tbl o = cusumSpecFormula k f tbl o := by
  simp only [cusum, cusumSpecFormula]
  ring

/-! ## Phase-skip processor (src/atspm_report/phase_skip_processing.py)

Raw controller events; timestamps are seconds.  Event ids 102/104 are
preempt events, 612..627 per-phase wait samples, 132 max-cycle-length
samples. -/

/-- One raw controller event row (deviceid, timestamp, eventid, parameter). -/
structure RawEvent where
  deviceid : ℕ
  timestamp : ℤ
  eventid : ℤ
  parameter : ℤ
  deriving DecidableEq

/-- The window order of the preempt-pairing step: by timestamp, then by
event id. -/
def preLe (a b : RawEvent) : Prop :=
  a.timestamp < b.timestamp ∨ (a.timestamp = b.timestamp ∧ a.eventid ≤ b.eventid)

/-- Strict version of the window order. -/
def preLt (a b : RawEvent) : Prop :=
  a.timestamp < b.timestamp ∨ (a.timestamp = b.timestamp ∧ a.eventid < b.eventid)

instance : DecidableRel preLe := fun a b => by unfold preLe; infer_instance

instance : DecidableRel preLt := fun a b => by unfold preLt; infer_instance

instance : IsTotal RawEvent preLe where
  total a b := by
    rcases lt_trichotomy a.timestamp b.timestamp with h | h | h
    · exact Or.inl (Or.inl h)
    · rcases le_total a.eventid b.eventid with he | he
      · exact Or.inl (Or.inr ⟨h, he⟩)
      · exact Or.inr (Or.inr ⟨h.symm, he⟩)
    · exact Or.inr (Or.inl h)

instance : IsTrans RawEvent preLe where
  trans a b c hab hbc := by
    rcases hab with h1 | ⟨h1, h1e⟩ <;> rcases hbc with h2 | ⟨h2, h2e⟩
    · exact Or.inl (h1.trans h2)
    · exact Or.inl (h2 ▸ h1)
    · exact Or.inl (h1 ▸ h2)
    · exact Or.inr ⟨h1.trans h2, h1e.trans h2e⟩

theorem preLt_trans (a b c : RawEvent) (hab : preLt a b) (hbc : preLt b c) :
    preLt a c := by
  rcases hab with h1 | ⟨h1, h1e⟩ <;> rcases hbc with h2 | ⟨h2, h2e⟩
  · exact Or.inl (h1.trans h2)
  · exact Or.inl (h2 ▸ h1)
  · exact Or.inl (h1 ▸ h2)
  · exact Or.inr ⟨h1.trans h2, h1e.trans h2e⟩

theorem preLt_irrefl (a : RawEvent) : ¬ preLt a a := by
  rintro (h | ⟨-, h⟩) <;> exact lt_irrefl _ h

theorem preLt_of_preLe_ne (a b : RawEvent) (h : preLe a b)
    (hne : (a.timestamp, a.eventid) ≠ (b.timestamp, b.eventid)) : preLt a b := by
  rcases h with h | ⟨h1, h2⟩
  · exact Or.inl h
  · refine Or.inr ⟨h1, lt_of_le_of_ne h2 ?_⟩
    intro he
    exact hne (by rw [h1, he])

/-- The preempt events (ids 102/104) of one (DeviceId, PreemptNumber)
window partition. -/
def preemptEventsFor (events : List RawEvent) (dev : ℕ) (param : ℤ) : List RawEvent :=
  events.filter (fun e =>
    decide ((e.eventid = 102 ∨ e.eventid = 104) ∧ e.deviceid = dev ∧ e.parameter = param))

/-- The partition ordered as the pairing window orders it (by timestamp,
then event id). -/
def sortedPreemptEvents (events : List RawEvent) (dev : ℕ) (param : ℤ) : List RawEvent :=
  List.insertionSort preLe (preemptEventsFor events dev param)

/-- Consecutive pairs of a list: the model of pairing each row with
`lead()` over the window. -/
def adjacentPairs : List α → List (α × α)
  | [] => []
  | [_] => []
  | x :: y :: t => (x, y) :: adjacentPairs (y :: t)

theorem adjacentPairs_cons₂ (x y : α) (t : List α) :
    adjacentPairs (x :: y :: t) = (x, y) :: adjacentPairs (y :: t) := rfl

/-- Embedding of the `valid_preempt_intervals` step: each preempt event
paired with the next one of its window partition (`lead`), keeping only
pairs whose end time is strictly after their start time (the last event,
whose lead is NULL, is dropped by the pairing). -/
def valid_preempt_intervals (events : List RawEvent) (dev : ℕ) (param : ℤ) :
    List (ℤ × ℤ) :=
  ((adjacentPairs (sortedPreemptEvents events dev param)).filter
    (fun p => decide (p.1.timestamp < p.2.timestamp))).map
    (fun p => (p.1.timestamp, p.2.timestamp))

/-- The distinct PreemptNumber values a device has preempt events for. -/
def preemptParams (events : List RawEvent) (dev : ℕ) : List ℤ :=
  dedupFirst ((events.filter (fun e =>
    decide ((e.eventid = 102 ∨ e.eventid = 104) ∧ e.deviceid = dev))).map
    (fun e => e.parameter))

/-- All valid preempt intervals of one device, over every PreemptNumber. -/
def device_preempt_intervals (events : List RawEvent) (dev : ℕ) : List (ℤ × ℤ) :=
  ((preemptParams events dev).map
    (fun param => valid_preempt_intervals events dev param)).flatten

/-- The `max_cycles` aggregate: the largest parameter of the device's
event-132 rows, NULL when there is none. -/
def max_cycles (events : List RawEvent) (dev : ℕ) : Option ℤ :=
  ((events.filter (fun e => decide (e.eventid = 132 ∧ e.deviceid = dev))).map
    (fun e => e.parameter)).max?

/-- Integer form of `ceil(m * 1.5)` (`ceil_mul_three_halves_eq` below shows
it is exactly the ceiling of `m * 3/2`). -/
def ceil_mul_three_halves (m : ℤ) : ℤ := (3 * m + 1).fdiv 2

theorem ceil_mul_three_halves_eq (m : ℤ) :
    ceil_mul_three_halves m = Int.ceil ((m : ℚ) * (3 / 2)) := by
  have h1 : -((m : ℚ) * (3 / 2)) = (((-3) * m : ℤ) : ℚ) / ((2 : ℕ) : ℚ) := by
    push_cast; ring
  have h2 : Int.ceil ((m : ℚ) * (3 / 2)) = -Int.floor (-((m : ℚ) * (3 / 2))) := by
    rw [Int.floor_neg, neg_neg]
  rw [ceil_mul_three_halves, h2, h1, Rat.floor_intCast_div_natCast]
  have h3 : (3 * m + 1).fdiv 2 = (3 * m + 1) / 2 := Int.fdiv_eq_ediv _ (by norm_num)
  omega

/-- The `added_seconds` column: `ceil(MaxCycleLength * 1.5)` seconds when
the device's max cycle length is positive, 180 seconds otherwise
(including the NULL case of a device with no event-132 rows). -/
def added_seconds (events : List RawEvent) (dev : ℕ) : ℤ :=
  match max_cycles events dev with
  | some m => if 0 < m then ceil_mul_three_halves m else 180
  | none => 180

/-- The exclusion windows of a device: `[start, end + added_seconds)` for
each of its valid preempt intervals. -/
def preempt_windows (events : List RawEvent) (dev : ℕ) : List (ℤ × ℤ) :=
  (device_preempt_intervals events dev).map
    (fun i => (i.1, i.2 + added_seconds events dev))

/-- The raw phase-wait events (ids 612..627). -/
def phase_wait_events (events : List RawEvent) : List RawEvent :=
  events.filter (fun e => decide (612 ≤ e.eventid ∧ e.eventid ≤ 627))

/-- One annotated phase-wait row of the grouped `result` table. -/
structure WaitRow where
  deviceid : ℕ
  timestamp : ℤ
  phase : ℤ
  waitTime : ℤ
  maxCycleLength : Option ℤ
  preemptFlag : Bool
  deriving DecidableEq

/-- The `preempt_flag` aggregate: whether the timestamp falls inside any
exclusion window of the device (false when the device has none). -/
def preempt_flag (events : List RawEvent) (dev : ℕ) (ts : ℤ) : Bool :=
  (preempt_windows events dev).any (fun w => decide (w.1 ≤ ts) && decide (ts < w.2))

/-- Annotation of one wait event: phase = eventid - 611, wait time = the
parameter, plus the device's max cycle length and preempt flag. -/
def annotateWait (events : List RawEvent) (e : RawEvent) : WaitRow :=
  ⟨e.deviceid, e.timestamp, e.eventid - 611, e.parameter,
    max_cycles events e.deviceid, preempt_flag events e.deviceid e.timestamp⟩

/-- The grouped `result` table of annotated wait rows (the group-by merges
rows agreeing on every group column; members of one group share the
device and timestamp, hence the preempt flag). -/
def annotated_waits (events : List RawEvent) : List WaitRow :=
  dedupFirst ((phase_wait_events events).map (annotateWait events))

/-- The wait-time alert threshold: `MaxCycleLength * 1.5` when positive,
the 180-second free-signal fallback otherwise (NULL coalesced to 0). -/
def wait_threshold : Option ℤ → ℚ
  | some m => if 0 < m then (m : ℚ) * (3 / 2) else 180
  | none => 180

/-- The violation rows feeding alert aggregation: non-preempted wait rows
whose wait time exceeds the threshold. -/
def violation_rows (events : List RawEvent) : List WaitRow :=
  (annotated_waits events).filter (fun r =>
    decide (r.preemptFlag = false)
      && decide (wait_threshold r.maxCycleLength < (r.waitTime : ℚ)))

theorem annotated_waits_flag (events : List RawEvent) (r : WaitRow)
    (hr : r ∈ annotated_waits events) :
    r.preemptFlag = preempt_flag events r.deviceid r.timestamp := by
  obtain ⟨w, _, rfl⟩ := List.mem_map.mp ((mem_dedupFirst _ _).mp hr)
  rfl

/-- C2: a phase-wait event whose timestamp lies inside the exclusion
window `[StartTime, EndTime + added_seconds)` of some preempt interval of
its device never contributes a violation row: no violation row carries
its device and timestamp, whatever its wait time. -/
theorem preempt_exclusion (events : List RawEvent) (e : RawEvent)
    (he : e ∈ phase_wait_events events)
    (hwin : ∃ i ∈ device_preempt_intervals events e.deviceid,
      i.1 ≤ e.timestamp ∧ e.timestamp < i.2 + added_seconds events e.deviceid) :
    (violation_rows events).filter (fun r =>
      decide (r.deviceid = e.deviceid) && decide (r.timestamp = e.timestamp)) = [] := by
  rw [List.filter_eq_nil_iff]
  intro r hr hmatch
  rw [Bool.and_eq_true, decide_eq_true_eq, decide_eq_true_eq] at hmatch
  obtain ⟨hdev, hts⟩ := hmatch
  obtain ⟨hann, hcond⟩ := List.mem_filter.mp hr
  rw [Bool.and_eq_true, decide_eq_true_eq] at hcond
  have hflag : r.preemptFlag = false := hcond.1
  have htrue : preempt_flag events e.deviceid e.timestamp = true := by
    obtain ⟨i, hi, h1, h2⟩ := hwin
    rw [preempt_flag, List.any_eq_true]
    refine ⟨(i.1, i.2 + added_seconds events e.deviceid), ?_, ?_⟩
    · rw [preempt_windows]
      exact List.mem_map.mpr ⟨i, hi, rfl⟩
    · rw [Bool.and_eq_true, decide_eq_true_eq, decide_eq_true_eq]
      exact ⟨h1, h2⟩
  rw [annotated_waits_flag events r hann, hdev, hts, htrue] at hflag
  exact Bool.noConfusion hflag

theorem adjacentPairs_mem_iff (pLt : α → α → Prop)
    (htrans : ∀ a b c, pLt a b → pLt b c → pLt a c)
    (hirr : ∀ a, ¬ pLt a a) :
    ∀ s : List α, s.Pairwise pLt → ∀ a b, (a, b) ∈ adjacentPairs s ↔
      (a ∈ s ∧ b ∈ s ∧ pLt a b ∧ ∀ c ∈ s, ¬(pLt a c ∧ pLt c b)) := by
  intro s
  induction s with
  | nil =>
    intro _ a b
    constructor
    · intro h; exact absurd h (List.not_mem_nil _)
    · rintro ⟨h, -⟩; exact absurd h (List.not_mem_nil _)
  | cons x t ih =>
    intro hp a b
    obtain ⟨hx, hpt⟩ := List.pairwise_cons.mp hp
    cases t with
    | nil =>
      constructor
      · intro h; exact absurd h (List.not_mem_nil _)
      · rintro ⟨ha, hb, hab, -⟩
        rw [List.mem_singleton] at ha hb
        subst ha; subst hb
        exact absurd hab (hirr _)
    | cons y t' =>
      rw [adjacentPairs_cons₂, List.mem_cons]
      constructor
      · rintro (heq | hmem)
        · injection heq with h1 h2
          subst h1; subst h2
          refine ⟨List.mem_cons_self _ _,
            List.mem_cons_of_mem _ (List.mem_cons_self _ _),
            hx b (List.mem_cons_self _ _), ?_⟩
          rintro c hc ⟨hac, hcb⟩
          rcases List.mem_cons.mp hc with rfl | hc'
          · exact hirr c hac
          · rcases List.mem_cons.mp hc' with rfl | hc''
            · exact hirr c hcb
            · obtain ⟨hy, -⟩ := List.pairwise_cons.mp hpt
              exact hirr b (htrans b c b (hy c hc'') hcb)
        · obtain ⟨ha, hb, hab, hno⟩ := (ih hpt a b).mp hmem
          refine ⟨List.mem_cons_of_mem _ ha, List.mem_cons_of_mem _ hb, hab, ?_⟩
          rintro c hc hcon
          rcases List.mem_cons.mp hc with rfl | hc'
          · exact hirr a (htrans a c a hcon.1 (hx a ha))
          · exact hno c hc' hcon
      · rintro ⟨ha, hb, hab, hno⟩
        rcases List.mem_cons.mp ha with rfl | ha'
        · rcases List.mem_cons.mp hb with heq | hb'
          · rw [heq] at hab
            exact absurd hab (hirr _)
          · rcases List.mem_cons.mp hb' with rfl | hb''
            · exact Or.inl rfl
            · obtain ⟨hy, -⟩ := List.pairwise_cons.mp hpt
              exact absurd ⟨hx y (List.mem_cons_self _ _), hy b hb''⟩
                (hno y (List.mem_cons_of_mem _ (List.mem_cons_self _ _)))
        · have hb' : b ∈ y :: t' := by
            rcases List.mem_cons.mp hb with heq | h
            · rw [heq] at hab
              exact absurd (htrans a x a hab (hx a ha')) (hirr a)
            · exact h
          refine Or.inr ((ih hpt a b).mpr ⟨ha', hb', hab, ?_⟩)
          intro c hc hcon
          exact hno c (List.mem_cons_of_mem _ hc) hcon

/-- C7 (amended): a pair (s, e) is a produced preempt interval of a
(DeviceId, PreemptNumber) partition exactly when the partition has two
preempt events of ANY kind (start or end), adjacent in the (timestamp,
event id) order — the second is the chronologically next preempt event
after the first, with no other preempt event of the partition strictly
between them — whose timestamps are s and e with s < e.  (Distinct
(timestamp, event id) pairs in the partition make the window order
deterministic.) -/
theorem valid_preempt_intervals_pairing (events : List RawEvent) (dev : ℕ) (param : ℤ)
    (hnd : ((preemptEventsFor events dev param).map
      (fun e => (e.timestamp, e.eventid))).Nodup) (s e : ℤ) :
    (s, e) ∈ valid_preempt_intervals events dev param ↔
      ∃ a ∈ preemptEventsFor events dev param,
        ∃ b ∈ preemptEventsFor events dev param,
          a.timestamp = s ∧ b.timestamp = e ∧ s < e ∧ preLt a b ∧
          ∀ c ∈ preemptEventsFor events dev param, ¬(preLt a c ∧ preLt c b) := by
  have hperm : List.Perm (sortedPreemptEvents events dev param)
      (preemptEventsFor events dev param) :=
    List.perm_insertionSort preLe (preemptEventsFor events dev param)
  have hmemS : ∀ x : RawEvent,
      x ∈ sortedPreemptEvents events dev param ↔ x ∈ preemptEventsFor events dev param :=
    fun x => hperm.mem_iff
  have hsorted : List.Sorted preLe (sortedPreemptEvents events dev param) :=
    List.sorted_insertionSort preLe (preemptEventsFor events dev param)
  have hndS : ((sortedPreemptEvents events dev param).map
      (fun e => (e.timestamp, e.eventid))).Nodup :=
    (List.Perm.nodup_iff (hperm.map _)).mpr hnd
  have hkeys : (sortedPreemptEvents events dev param).Pairwise
      (fun a b : RawEvent => (a.timestamp, a.eventid) ≠ (b.timestamp, b.eventid)) :=
    List.pairwise_map.mp hndS
  have hplt : (sortedPreemptEvents events dev param).Pairwise preLt :=
    (hsorted.and hkeys).imp fun hcon => preLt_of_preLe_ne _ _ hcon.1 hcon.2
  have hadj := adjacentPairs_mem_iff preLt preLt_trans preLt_irrefl
    (sortedPreemptEvents events dev param) hplt
  rw [valid_preempt_intervals]
  constructor
  · intro h
    obtain ⟨p, hp, hpe⟩ := List.mem_map.mp h
    obtain ⟨hpadj, hg⟩ := List.mem_filter.mp hp
    obtain ⟨a, b⟩ := p
    injection hpe with h1 h2
    rw [decide_eq_true_eq] at hg
    obtain ⟨ha, hb, hab, hno⟩ := (hadj a b).mp hpadj
    exact ⟨a, (hmemS a).mp ha, b, (hmemS b).mp hb, h1, h2, h1 ▸ h2 ▸ hg,
      hab, fun c hc => hno c ((hmemS c).mpr hc)⟩
  · rintro ⟨a, ha, b, hb, has, hbe, hse, hab, hno⟩
    refine List.mem_map.mpr ⟨(a, b), List.mem_filter.mpr ⟨?_, ?_⟩, ?_⟩
    · exact (hadj a b).mpr ⟨(hmemS a).mpr ha, (hmemS b).mpr hb, hab,
        fun c hc => hno c ((hmemS c).mp hc)⟩
    · rw [decide_eq_true_eq, has, hbe]
      exact hse
    · rw [has, hbe]

/-- Modelled from the claim for C7: for each (DeviceId, PreemptNumber),
each preempt-start event (id 102) is paired with the next chronological
preempt-end event (id 104) of the partition, pairs whose end time is not
after their start time are discarded, and nothing other than a start
event followed by an end event forms an interval. -/
def claimed_preempt_intervals (events : List RawEvent) (dev : ℕ) (param : ℤ) :
    List (ℤ × ℤ) :=
  ((sortedPreemptEvents events dev param).filter
    (fun a => decide (a.eventid = 102))).filterMap
    (fun a =>
      match (sortedPreemptEvents events dev param).find?
          (fun b => decide (b.eventid = 104) && decide (preLt a b)) with
      | some b =>
          if a.timestamp < b.timestamp then some (a.timestamp, b.timestamp) else none
      | none => none)

/-- C7 counterexample: on a partition holding an end event (104) at t = 10
followed by a start event (102) at t = 20, the code forms the interval
(10, 20) out of an end event followed by a start event, while the
claimed start-to-next-end pairing forms no interval at all. -/
theorem preempt_interval_pairing_counterexample :
    valid_preempt_intervals [⟨1, 10, 104, 1⟩, ⟨1, 20, 102, 1⟩] 1 1 = [(10, 20)]
    ∧ claimed_preempt_intervals [⟨1, 10, 104, 1⟩, ⟨1, 20, 102, 1⟩] 1 1 = [] := by
  constructor <;> rfl

/-- Closed instance of the amended pairing characterization on a
two-event partition: a start at t = 0 and an end at t = 100. -/
theorem valid_preempt_intervals_pairing_witness :
    (((0 : ℤ), (100 : ℤ)) ∈
        valid_preempt_intervals [⟨1, 0, 102, 1⟩, ⟨1, 100, 104, 1⟩] 1 1 ↔
      ∃ a ∈ preemptEventsFor [⟨1, 0, 102, 1⟩, ⟨1, 100, 104, 1⟩] 1 1,
        ∃ b ∈ preemptEventsFor [⟨1, 0, 102, 1⟩, ⟨1, 100, 104, 1⟩] 1 1,
          a.timestamp = 0 ∧ b.timestamp = 100 ∧ (0 : ℤ) < 100 ∧ preLt a b ∧
          ∀ c ∈ preemptEventsFor [⟨1, 0, 102, 1⟩, ⟨1, 100, 104, 1⟩] 1 1,
            ¬(preLt a c ∧ preLt c b)) :=
  valid_preempt_intervals_pairing [⟨1, 0, 102, 1⟩, ⟨1, 100, 104, 1⟩] 1 1 (by decide) 0 100

/-- Closed instance of preempt exclusion: a preempt interval (0, 100) with
max cycle length 120 extends the exclusion window to 100 + 180 = 280, and
a wait event at t = 150 with a huge wait time of 999 contributes no
violation row. -/
theorem preempt_exclusion_witness :
    (violation_rows
        [⟨1, 0, 102, 1⟩, ⟨1, 100, 104, 1⟩, ⟨1, 10, 132, 120⟩, ⟨1, 150, 613, 999⟩]).filter
      (fun r => decide (r.deviceid = 1) && decide (r.timestamp = 150)) = [] :=
  preempt_exclusion
    [⟨1, 0, 102, 1⟩, ⟨1, 100, 104, 1⟩, ⟨1, 10, 132, 120⟩, ⟨1, 150, 613, 999⟩]
    ⟨1, 150, 613, 999⟩ (by decide) (by decide)

/-! ## Loading the persisted history (ATSPMReport.py, `load_past_alerts`
and the try/except around it in `main`)

The per-type history file is modelled by its state: missing, unreadable
(corrupt), or readable with contents. -/

/-- The state of one alert type's persisted history file. -/
inductive FileState (α : Type) where
  | missing
  | corrupt
  | good (contents : α)
  deriving DecidableEq

/-- The error a failed history read raises. -/
inductive LoadError where
  | readFailure
  deriving DecidableEq

/-- Reading one alert type's history in `load_past_alerts`: a missing file
yields an empty history (the `file_path.exists()` branch), a readable file
yields its rows, and an unreadable file raises. -/
def load_one_history : FileState (List β) → Except LoadError (List β)
  | FileState.missing => Except.ok []
  | FileState.corrupt => Except.error LoadError.readFailure
  | FileState.good rows => Except.ok rows

/-- Embedding of `load_past_alerts`: reads every alert type's history in
order; the first raising read aborts the whole load. -/
def load_past_alerts : List (FileState (List β)) → Except LoadError (List (List β))
  | [] => Except.ok []
  | f :: rest =>
      match load_one_history f with
      | Except.error e => Except.error e
      | Except.ok rows =>
          match load_past_alerts rest with
          | Except.error e => Except.error e
          | Except.ok hs => Except.ok (rows :: hs)

/-- Embedding of the try/except around the past-alert loading in `main`:
the handler logs the exception and re-raises it (`raise e`), so an error
propagates and aborts the run. -/
def main_load_past_alerts (files : List (FileState (List β))) :
    Except LoadError (List (List β)) :=
  match load_past_alerts files with
  | Except.ok h => Except.ok h
  | Except.error e => Except.error e

/-- C10 counterexample: with a single unreadable (corrupt) history file
the run aborts with the read error instead of degrading to an empty
history and continuing. -/
theorem load_past_alerts_counterexample :
    main_load_past_alerts ([FileState.corrupt] : List (FileState (List (ARec ℕ))))
        = Except.error LoadError.readFailure
    ∧ ∀ h : List (List (ARec ℕ)),
        main_load_past_alerts ([FileState.corrupt] : List (FileState (List (ARec ℕ))))
          ≠ Except.ok h := by
  refine ⟨rfl, ?_⟩
  intro h hok
  rw [show main_load_past_alerts ([FileState.corrupt] : List (FileState (List (ARec ℕ))))
      = Except.error LoadError.readFailure from rfl] at hok
  exact Except.noConfusion hok

/-- C10 (amended): when no history file is unreadable, loading succeeds
and every missing file degrades to an empty history for its alert type
(so no suppression is possible for it) and the run continues; but when
any history file is unreadable, `main` re-raises the read error and the
run aborts.  With an empty history, `suppress_alerts` reports the flagged
set unchanged. -/
theorem load_past_alerts_degradation (files : List (FileState (List β))) :
    (FileState.corrupt ∉ files →
      main_load_past_alerts files = Except.ok (files.map (fun f =>
        match f with
        | FileState.good rows => rows
        | _ => [])))
    ∧ (FileState.corrupt ∈ files →
        main_load_past_alerts files = Except.error LoadError.readFailure)
    ∧ (∀ [DecidableEq β] (now d : ℤ) (newAlerts : List (ARec β)),
        suppress_alerts now d newAlerts [] = newAlerts) := by
  refine ⟨?_, ?_, ?_⟩
  · intro hnc
    induction files with
    | nil => rfl
    | cons f rest ih =>
      have hfn : f ≠ FileState.corrupt := fun h =>
        hnc (h ▸ List.mem_cons_self _ _)
      have hrest : FileState.corrupt ∉ rest := fun h =>
        hnc (List.mem_cons_of_mem _ h)
      have hr := ih hrest
      rw [main_load_past_alerts] at hr ⊢
      cases f with
      | missing =>
          rw [List.map_cons, load_past_alerts, load_one_history]
          cases hres : load_past_alerts rest with
          | ok hs =>
              rw [hres] at hr
              cases hr
              rfl
          | error e =>
              rw [hres] at hr
              exact Except.noConfusion hr
      | corrupt => exact absurd rfl hfn
      | good rows =>
          rw [List.map_cons, load_past_alerts, load_one_history]
          cases hres : load_past_alerts rest with
          | ok hs =>
              rw [hres] at hr
              cases hr
              rfl
          | error e =>
              rw [hres] at hr
              exact Except.noConfusion hr
  · intro hc
    induction files with
    | nil => exact absurd hc (List.not_mem_nil _)
    | cons f rest ih =>
      rw [main_load_past_alerts]
      cases f with
      | missing =>
          have hcr : FileState.corrupt ∈ rest := by
            rcases List.mem_cons.mp hc with h | h
            · exact absurd h.symm (by intro hcon; exact FileState.noConfusion hcon)
            · exact h
          have hr := ih hcr
          rw [main_load_past_alerts] at hr
          rw [load_past_alerts, load_one_history]
          cases hres : load_past_alerts rest with
          | ok hs =>
              rw [hres] at hr
              exact Except.noConfusion hr
          | error e =>
              rw [hres] at hr
      | corrupt =>
          rw [load_past_alerts, load_one_history]
      | good rows =>
          have hcr : FileState.corrupt ∈ rest := by
            rcases List.mem_cons.mp hc with h | h
            · exact absurd h.symm (by intro hcon; exact FileState.noConfusion hcon)
            · exact h
          have hr := ih hcr
          rw [main_load_past_alerts] at hr
          rw [load_past_alerts, load_one_history]
          cases hres : load_past_alerts rest with
          | ok hs =>
              rw [hres] at hr
              exact Except.noConfusion hr
          | error e =>
              rw [hres] at hr
  · intro _ now d newAlerts
    simp [suppress_alerts]

end AtspmReport
